import Mathlib

/-!
Shallow embedding of the event-loop visualizer core
(`src/routes/+page.svelte`, `src/routes/types.ts`).

The component keeps eight pieces of module-level mutable state: four item
containers (`callStack`, `webAPI`, `callbackQueue`, `microTaskQueue`), the
output log, the run `status`, a `uniqueId` counter, and the registry of
`scheduledEvents`.  Every function of the script mutates that state, so the
embedding threads an explicit `SimState` value through each function.

Wall-clock reads (`Date.now()`) become an explicit `now : Int` argument.
A live `setTimeout` handle (`NodeJS.Timeout | null`) is modelled as
`Option Unit` (JS object truthiness: any handle is truthy, `null` is falsy).
Scheduled callbacks are opaque closures in the source; since no verified
claim invokes them, they are modelled as opaque numeric tags.
-/

namespace V8Vis

/-- Type `Status` from `types.ts`. -/
inductive Status where
  | idle
  | running
  | paused
  | complete
deriving DecidableEq, Repr

/-- Type `EventType` from `types.ts`. -/
inductive EventType where
  | fetch
  | setTimeout
  | DOM
  | promise
  | requestAnimationFrame
  | database
  | imageLoad
deriving DecidableEq, Repr

/-- Type `QueueItem` from `types.ts`. -/
structure QueueItem where
  id : Nat
  text : String
  type : EventType
  duration : Nat
deriving DecidableEq, Repr

/-- Type `ScheduledEvent` from `types.ts`.  `callback` is an opaque tag for the
stored closure; `timer` is `some ()` while a host timer is armed, `none`
when the field is `null`; `startTime` is the optional `Date.now()` stamp. -/
structure ScheduledEvent where
  callback : Nat
  remainingDelay : Int
  timer : Option Unit
  startTime : Option Int
deriving DecidableEq, Repr

/-- The module-level mutable state of `+page.svelte` (lines 6-15). -/
structure SimState where
  callStack : List QueueItem
  webAPI : List QueueItem
  callbackQueue : List QueueItem
  microTaskQueue : List QueueItem
  output : List String
  status : Status
  uniqueId : Nat
  scheduledEvents : List ScheduledEvent
deriving DecidableEq, Repr

/-- Function `getNextId` (lines 17-19): returns the current counter and increments it. -/
def getNextId (st : SimState) : Nat × SimState :=
  (st.uniqueId, { st with uniqueId := st.uniqueId + 1 })

/-- Function `reset` (lines 21-33): status to idle, all four containers, the output
log and the scheduled-event registry are emptied (each pending host timer is
cleared before the registry is dropped).  The `uniqueId` counter is not
touched by the source. -/
def reset (st : SimState) : SimState :=
  { st with
    status := Status.idle
    callStack := []
    webAPI := []
    callbackQueue := []
    microTaskQueue := []
    output := []
    scheduledEvents := [] }

/-- Function `addToCallStack` (lines 48-50): appends `{ ...item, id: getNextId() }`
to the stack tail. -/
def addToCallStack (item : QueueItem) (st : SimState) : SimState :=
  let p := getNextId st
  { p.2 with callStack := p.2.callStack ++ [{ item with id := p.1 }] }

/-- Function `removeFromCallStack` (lines 52-54): keeps exactly the entries whose
`text` differs from the argument. -/
def removeFromCallStack (text : String) (st : SimState) : SimState :=
  { st with callStack := st.callStack.filter (fun item => item.text != text) }

/-- Function `scheduleEvent` (lines 56-69): registers a new `ScheduledEvent` with
`remainingDelay = delay`, `startTime = Date.now()`, and an armed host timer
(the source builds the record with `timer: null` and immediately assigns the
`setTimeout` handle), then appends it to the registry. -/
def scheduleEvent (cb : Nat) (delay : Int) (now : Int) (st : SimState) : SimState :=
  { st with
    scheduledEvents :=
      st.scheduledEvents ++ [⟨cb, delay, some (), some now⟩] }

/-- Body of the `forEach` in `pauseExecution` (lines 77-86): for an entry
with a live timer, clear the timer; when `event.startTime` is truthy (set
and nonzero), recompute `remainingDelay = max(0, remainingDelay - elapsed)`
with `elapsed = now - startTime`.  `startTime` itself is left in place.
Entries with no live timer are untouched. -/
def pauseEntry (now : Int) (e : ScheduledEvent) : ScheduledEvent :=
  if e.timer.isSome then
    match e.startTime with
    | some s =>
      if s ≠ 0 then
        { e with timer := none, remainingDelay := max 0 (e.remainingDelay - (now - s)) }
      else
        { e with timer := none }
    | none => { e with timer := none }
  else e

/-- Function `pauseExecution` (lines 71-89): no-op unless running; otherwise set
status to paused, suspend every registry entry, and append a log line. -/
def pauseExecution (now : Int) (st : SimState) : SimState :=
  if st.status = Status.running then
    { st with
      status := Status.paused
      scheduledEvents := st.scheduledEvents.map (pauseEntry now)
      output := st.output ++ ["⏸️ Execution paused"] }
  else st

/-- Body of the `forEach` in `resumeExecution` (lines 97-105): an entry with
no live timer is re-armed for its `remainingDelay` and restamped with
`startTime = Date.now()`; entries already running are untouched. -/
def resumeEntry (now : Int) (e : ScheduledEvent) : ScheduledEvent :=
  if e.timer.isSome then e
  else { e with timer := some (), startTime := some now }

/-- Function `resumeExecution` (lines 91-108): no-op unless paused; otherwise set
status to running, re-arm every suspended entry, and append a log line. -/
def resumeExecution (now : Int) (st : SimState) : SimState :=
  if st.status = Status.paused then
    { st with
      status := Status.running
      scheduledEvents := st.scheduledEvents.map (resumeEntry now)
      output := st.output ++ ["▶️ Execution resumed"] }
  else st

/-- Macrotask enqueue, the `callbackQueue = [...callbackQueue, item]`
pattern of lines 159 and 166: append at the tail. -/
def enqueueMacrotask (q : List QueueItem) (item : QueueItem) : List QueueItem :=
  q ++ [item]

/-- Macrotask dequeue, the `callbackQueue[0]` / `callbackQueue.slice(1)`
pair of lines 180-181 and 188-189: yield the head (or `none` when the queue
is empty, `callbackQueue[0]` being `undefined` then) and keep the tail. -/
def dequeueOneMacrotask (q : List QueueItem) : Option QueueItem × List QueueItem :=
  (q.head?, q.drop 1)

/-- Microtask enqueue, the `microTaskQueue = [...microTaskQueue, item]`
pattern of line 151: append at the tail. -/
def enqueueMicrotask (q : List QueueItem) (item : QueueItem) : List QueueItem :=
  q ++ [item]

/-- The microtask-processing step of the simulation program (lines 171-176):
read `microTaskQueue[0]`, clear the whole queue, push the read item onto the
call stack, and log.  On an empty queue the source reads `undefined` and
still spreads it into a fresh frame (`{ ...undefined, id }`); that
degenerate frame cannot be represented by `QueueItem` and no claim
quantifies over the empty case, so the embedding only clears the queue
there. -/
def drainMicrotasksStep (st : SimState) : SimState :=
  let st1 := { st with microTaskQueue := [] }
  let st2 :=
    match st.microTaskQueue.head? with
    | some m => addToCallStack m st1
    | none => st1
  { st2 with output := st2.output ++ ["10. Processing Promise callback"] }

/-- Function `simulateEventLoop` (lines 110-200): reset, enter the running state,
push `main()` (the inline `getNextId()` of line 115 is evaluated first and
then overwritten inside `addToCallStack`), log, and register the eleven
top-level scheduled actions of the fixture with their absolute delays.
The callback tags 1-11 stand for the closures of lines 119-199; a twelfth
closure (line 150) is only scheduled when tag 5 fires, not here. -/
def simulateEventLoop (now : Int) (st : SimState) : SimState :=
  let st0 := reset st
  let st1 := { st0 with status := Status.running }
  let p := getNextId st1
  let st2 := addToCallStack ⟨p.1, "main()", EventType.DOM, 0⟩ p.2
  let st3 := { st2 with output := st2.output ++ ["1. Starting main execution"] }
  let st4 := scheduleEvent 1 500 now st3
  let st5 := scheduleEvent 2 1000 now st4
  let st6 := scheduleEvent 3 1500 now st5
  let st7 := scheduleEvent 4 2000 now st6
  let st8 := scheduleEvent 5 2500 now st7
  let st9 := scheduleEvent 6 4500 now st8
  let st10 := scheduleEvent 7 5000 now st9
  let st11 := scheduleEvent 8 5500 now st10
  let st12 := scheduleEvent 9 6000 now st11
  let st13 := scheduleEvent 10 6500 now st12
  let st14 := scheduleEvent 11 7000 now st13
  st14

/-- The Run button (lines 207-213): `on:click={simulateEventLoop}` guarded
by `disabled={status === 'running' || status === 'paused'}` — a disabled
button never delivers the click. -/
def runTrigger (now : Int) (st : SimState) : SimState :=
  if st.status = Status.running ∨ st.status = Status.paused then st
  else simulateEventLoop now st

/-- Repeated macrotask dequeueing (one dequeue per processing step of the
fixture): perform `n` dequeues, collecting the items obtained. -/
def dequeueN : Nat → List QueueItem → List QueueItem × List QueueItem
  | 0, q => ([], q)
  | n + 1, q =>
    let d := dequeueOneMacrotask q
    match d.1 with
    | none => ([], d.2)
    | some x => ((x :: (dequeueN n d.2).1), (dequeueN n d.2).2)


/-! ## Helper lemmas -/

/-- Repeated dequeueing yields the first `n` items in queue order and keeps
the rest: the queue behaves as a strict FIFO under `dequeueOneMacrotask`. -/
theorem dequeueN_eq_take_drop : ∀ (n : Nat) (q : List QueueItem),
    dequeueN n q = (q.take n, q.drop n)
  | 0, _ => rfl
  | n + 1, [] => rfl
  | n + 1, x :: t => by
    simp [dequeueN, dequeueOneMacrotask, dequeueN_eq_take_drop n t]

/-- Removal by label with no matching label present leaves the state intact. -/
theorem removeFromCallStack_no_match (t : String) (st : SimState)
    (h : ∀ i ∈ st.callStack, i.text ≠ t) : removeFromCallStack t st = st := by
  have hf : st.callStack.filter (fun item => item.text != t) = st.callStack :=
    List.filter_eq_self.mpr (fun a ha => by simpa using h a ha)
  simp [removeFromCallStack, hf]

/-- Pointwise lifting of a relation along a `List.map`. -/
theorem forall2_map_right {α β : Type} {R : α → β → Prop} (f : α → β) :
    ∀ (l : List α), (∀ x ∈ l, R x (f x)) → List.Forall₂ R l (l.map f)
  | [], _ => List.Forall₂.nil
  | a :: t, h =>
    List.Forall₂.cons (h a (by simp))
      (forall2_map_right f t (fun x hx => h x (by simp [hx])))

/-! ## Claims -/

/-- C5: the macrotask (callback) queue is strict FIFO and dequeued one item
at a time.  Each dequeue removes exactly the head, and for an item `a`
enqueued before an item `b`, repeatedly dequeueing the queue delivers `a`
strictly before `b` (here: draining the whole queue yields `q ++ [a, b]`,
with `a` at an earlier position). -/
theorem macrotask_queue_fifo (q t : List QueueItem) (a b x : QueueItem) :
    dequeueOneMacrotask (x :: t) = (some x, t)
    ∧ dequeueN (q.length + 2) (enqueueMacrotask (enqueueMacrotask q a) b)
        = (q ++ [a, b], []) := by
  constructor
  · rfl
  · rw [dequeueN_eq_take_drop]
    have h : enqueueMacrotask (enqueueMacrotask q a) b = q ++ [a, b] := by
      simp [enqueueMacrotask]
    rw [h]
    have hl : (q ++ [a, b]).length = q.length + 2 := by simp
    rw [← hl, List.take_length, List.drop_length]

/-- C6: while the status is running or paused, the Run trigger is disabled,
so invoking it starts no new simulation and leaves the state untouched. -/
theorem run_disabled_while_active (now : Int) (st : SimState)
    (h : st.status = Status.running ∨ st.status = Status.paused) :
    runTrigger now st = st := by
  unfold runTrigger
  rw [if_pos h]

/-- Witness for C6 at a concrete running state. -/
theorem run_disabled_while_active_witness :
    runTrigger 0 ⟨[], [], [], [], [], Status.running, 3, []⟩
      = ⟨[], [], [], [], [], Status.running, 3, []⟩ :=
  run_disabled_while_active 0 _ (Or.inl rfl)

/-- C8: operating on an absent queue item is a silent no-op:
`removeFromCallStack` with no matching label returns the state unchanged,
and the macrotask dequeue on an empty queue yields `none` and removes
nothing (the queue stays empty); both are total functions, so neither can
raise. -/
theorem absent_item_ops_are_noops (t : String) (st : SimState)
    (h : ∀ i ∈ st.callStack, i.text ≠ t) :
    removeFromCallStack t st = st ∧ dequeueOneMacrotask [] = (none, []) :=
  ⟨removeFromCallStack_no_match t st h, rfl⟩

/-- Witness for C8 at a concrete state whose stack holds one non-matching
frame. -/
theorem absent_item_ops_are_noops_witness :
    removeFromCallStack "f()" ⟨[⟨0, "g()", EventType.DOM, 0⟩], [], [], [], [], Status.running, 1, []⟩
        = ⟨[⟨0, "g()", EventType.DOM, 0⟩], [], [], [], [], Status.running, 1, []⟩
    ∧ dequeueOneMacrotask [] = (none, []) :=
  absent_item_ops_are_noops "f()" _ (by decide)

/-- C2 counterexample: `reset` does not restart the id counter.  From a
state whose counter is 5, the counter is still 5 (not 0) after `reset`,
refuting the claim that the id counter restarts at 0. -/
theorem reset_does_not_restart_id_counter :
    (reset ⟨[], [], [], [], [], Status.complete, 5, []⟩).uniqueId ≠ 0 := by
  decide

/-- C2 amended: `reset` from any state yields status idle, all four
containers empty, the output log empty and an empty timer registry (hence
zero live timers), but leaves the id counter unchanged; a following run
therefore continues ids from the current counter (the `main()` frame of the
next run gets id `uniqueId + 1`, the inline `getNextId()` of line 115 being
consumed and then overwritten inside `addToCallStack`). -/
theorem reset_spec (now : Int) (st : SimState) :
    (reset st).status = Status.idle
    ∧ (reset st).callStack = []
    ∧ (reset st).webAPI = []
    ∧ (reset st).callbackQueue = []
    ∧ (reset st).microTaskQueue = []
    ∧ (reset st).output = []
    ∧ (reset st).scheduledEvents = []
    ∧ (reset st).uniqueId = st.uniqueId
    ∧ (simulateEventLoop now st).callStack.map (fun i => i.id) = [st.uniqueId + 1] := by
  refine ⟨rfl, rfl, rfl, rfl, rfl, rfl, rfl, rfl, ?_⟩
  simp [simulateEventLoop, reset, getNextId, addToCallStack, scheduleEvent]

/-- C3 counterexample: with two stack entries both labelled `"f()"`, one
`removeFromCallStack "f()"` call removes both of them (the result stack is
empty), refuting the claim that at most one entry is removed. -/
theorem removeFromCallStack_removes_all_matches :
    (removeFromCallStack "f()"
        ⟨[⟨0, "f()", EventType.DOM, 0⟩, ⟨1, "f()", EventType.DOM, 0⟩],
         [], [], [], [], Status.running, 2, []⟩).callStack = [] := by
  decide

/-- C3 amended: `removeFromCallStack text` removes every stack entry whose
label equals `text` (not at most one), keeping all other entries in order
(the result is a sublist of the input retaining every non-matching entry),
is a silent no-op when no entry matches, and touches no other component of
the state. -/
theorem removeFromCallStack_spec (t : String) (st : SimState) :
    (removeFromCallStack t st).callStack.Sublist st.callStack
    ∧ (removeFromCallStack t st).callStack.countP (fun i => i.text == t) = 0
    ∧ (removeFromCallStack t st).callStack.countP (fun i => i.text != t)
        = st.callStack.countP (fun i => i.text != t)
    ∧ (st.callStack.countP (fun i => i.text == t) = 0 → removeFromCallStack t st = st)
    ∧ (removeFromCallStack t st).webAPI = st.webAPI
    ∧ (removeFromCallStack t st).callbackQueue = st.callbackQueue
    ∧ (removeFromCallStack t st).microTaskQueue = st.microTaskQueue
    ∧ (removeFromCallStack t st).output = st.output
    ∧ (removeFromCallStack t st).status = st.status
    ∧ (removeFromCallStack t st).uniqueId = st.uniqueId
    ∧ (removeFromCallStack t st).scheduledEvents = st.scheduledEvents := by
  refine ⟨List.filter_sublist _, ?_, ?_, ?_, rfl, rfl, rfl, rfl, rfl, rfl, rfl⟩
  · rw [List.countP_eq_zero]
    intro a ha
    have := List.of_mem_filter ha
    simp at this ⊢
    exact this
  · show (st.callStack.filter (fun i => i.text != t)).countP (fun i => i.text != t) = _
    rw [List.countP_filter]
    simp
  · intro h0
    apply removeFromCallStack_no_match
    intro i hi
    rw [List.countP_eq_zero] at h0
    simpa using h0 i hi

/-- Witness for C3 (amended) at a concrete one-frame state with no matching
label, including the discharged no-match branch. -/
theorem removeFromCallStack_spec_witness :
    (removeFromCallStack "x" ⟨[⟨0, "g()", EventType.DOM, 0⟩], [], [], [], [], Status.idle, 1, []⟩).callStack.Sublist
        [⟨0, "g()", EventType.DOM, 0⟩]
    ∧ removeFromCallStack "x" ⟨[⟨0, "g()", EventType.DOM, 0⟩], [], [], [], [], Status.idle, 1, []⟩
        = ⟨[⟨0, "g()", EventType.DOM, 0⟩], [], [], [], [], Status.idle, 1, []⟩ :=
  ⟨(removeFromCallStack_spec "x" _).1,
   (removeFromCallStack_spec "x" _).2.2.2.1 (by decide)⟩

/-- C4 counterexample: with two enqueued microtasks, the drain step clears
the whole queue but delivers only the first item to the call stack; the
second item appears in no container of the result state, refuting the claim
that a drain returns all currently enqueued items. -/
theorem drain_discards_second_microtask :
    drainMicrotasksStep
        ⟨[], [], [],
         [⟨0, "Promise callback", EventType.promise, 0⟩,
          ⟨1, "second microtask", EventType.promise, 0⟩],
         [], Status.running, 2, []⟩
      = ⟨[⟨2, "Promise callback", EventType.promise, 0⟩], [], [], [],
         ["10. Processing Promise callback"], Status.running, 3, []⟩ := rfl

/-- C4 amended: on a microtask queue holding at least one item, the drain
step empties the whole queue in one operation but moves only the first
enqueued item to the call stack (with a fresh id); any further enqueued
items are discarded, and the other containers are untouched. -/
theorem drainMicrotasksStep_spec (st : SimState) (m : QueueItem)
    (rest : List QueueItem) (h : st.microTaskQueue = m :: rest) :
    (drainMicrotasksStep st).microTaskQueue = []
    ∧ (drainMicrotasksStep st).callStack = st.callStack ++ [{ m with id := st.uniqueId }]
    ∧ (drainMicrotasksStep st).webAPI = st.webAPI
    ∧ (drainMicrotasksStep st).callbackQueue = st.callbackQueue
    ∧ (drainMicrotasksStep st).scheduledEvents = st.scheduledEvents
    ∧ (drainMicrotasksStep st).status = st.status
    ∧ (drainMicrotasksStep st).uniqueId = st.uniqueId + 1
    ∧ (drainMicrotasksStep st).output = st.output ++ ["10. Processing Promise callback"] := by
  refine ⟨?_, ?_, ?_, ?_, ?_, ?_, ?_, ?_⟩ <;>
    simp [drainMicrotasksStep, h, addToCallStack, getNextId]

/-- Witness for C4 (amended) at a concrete one-item queue. -/
theorem drainMicrotasksStep_spec_witness :
    (drainMicrotasksStep ⟨[], [], [], [⟨0, "m", EventType.promise, 0⟩], [], Status.running, 0, []⟩).microTaskQueue = []
    ∧ (drainMicrotasksStep ⟨[], [], [], [⟨0, "m", EventType.promise, 0⟩], [], Status.running, 0, []⟩).uniqueId = 0 + 1 :=
  ⟨(drainMicrotasksStep_spec _ ⟨0, "m", EventType.promise, 0⟩ [] rfl).1,
   (drainMicrotasksStep_spec _ ⟨0, "m", EventType.promise, 0⟩ [] rfl).2.2.2.2.2.2.1⟩

/-- C1 counterexample: a running state with one armed entry
(`remainingDelay = 100`, `armedAt = 5`), paused at `now = 7`: the timer is
cleared and `remainingDelay` becomes `max 0 (100 - 2) = 98`, but `armedAt`
(`startTime`) is NOT cleared — it is still `some 5`, refuting the claim
that `pauseAll` clears `armedAt`. -/
theorem pauseExecution_keeps_armedAt :
    (pauseExecution 7 ⟨[], [], [], [], [], Status.running, 0,
        [⟨0, 100, some (), some 5⟩]⟩).scheduledEvents
      = [⟨0, 98, none, some 5⟩]
    ∧ (pauseExecution 7 ⟨[], [], [], [], [], Status.running, 0,
        [⟨0, 100, some (), some 5⟩]⟩).scheduledEvents.map (fun e => e.startTime)
      ≠ [none] := by
  constructor
  · rfl
  · decide

/-- Pointwise description of `pauseEntry`: entries with no live timer are
untouched; an armed entry has its timer cleared, its `startTime` kept, its
callback kept, and its remaining delay recomputed only when `startTime` is
set and nonzero. -/
theorem pauseEntry_cases (now : Int) (e : ScheduledEvent) :
    (e.timer = none → pauseEntry now e = e)
    ∧ (e.timer.isSome →
        (pauseEntry now e).timer = none
        ∧ (pauseEntry now e).startTime = e.startTime
        ∧ (pauseEntry now e).callback = e.callback
        ∧ (pauseEntry now e).remainingDelay =
            (match e.startTime with
             | some s =>
               if s ≠ 0 then max 0 (e.remainingDelay - (now - s))
               else e.remainingDelay
             | none => e.remainingDelay)) := by
  unfold pauseEntry
  cases ht : e.timer with
  | none => simp
  | some u =>
    cases hs : e.startTime with
    | none => simp
    | some s =>
      by_cases h0 : s = 0 <;> simp [h0]

/-- C1 amended: from a running state, `pauseExecution` sets the status to
paused; for every registry entry with a live timer it clears the timer
handle and recomputes `remainingDelay = max 0 (remainingDelay - (now -
armedAt))` — but only when `armedAt` (`startTime`) is set and nonzero, and
the `armedAt` stamp itself is left in place, not cleared; entries with no
live timer are skipped; and a second `pauseExecution` on the result is a
complete no-op (the guard sees a non-running status). -/
theorem pauseExecution_spec (now now2 : Int) (st : SimState)
    (hrun : st.status = Status.running) :
    (pauseExecution now st).status = Status.paused
    ∧ List.Forall₂
        (fun e e2 =>
          (e.timer = none → e2 = e)
          ∧ (e.timer.isSome →
              e2.timer = none
              ∧ e2.startTime = e.startTime
              ∧ e2.callback = e.callback
              ∧ e2.remainingDelay =
                  (match e.startTime with
                   | some s =>
                     if s ≠ 0 then max 0 (e.remainingDelay - (now - s))
                     else e.remainingDelay
                   | none => e.remainingDelay)))
        st.scheduledEvents (pauseExecution now st).scheduledEvents
    ∧ pauseExecution now2 (pauseExecution now st) = pauseExecution now st := by
  have hpaused : (pauseExecution now st).status = Status.paused := by
    simp [pauseExecution, hrun]
  refine ⟨hpaused, ?_, ?_⟩
  · have hev : (pauseExecution now st).scheduledEvents
        = st.scheduledEvents.map (pauseEntry now) := by
      simp [pauseExecution, hrun]
    rw [hev]
    exact forall2_map_right _ _ (fun e _ => pauseEntry_cases now e)
  · generalize hX : pauseExecution now st = X at hpaused ⊢
    simp [pauseExecution, hpaused]

/-- Witness for C1 (amended) at a concrete running state with one armed
entry, including the discharged idempotence branch. -/
theorem pauseExecution_spec_witness :
    (pauseExecution 7 ⟨[], [], [], [], [], Status.running, 0,
        [⟨0, 100, some (), some 5⟩]⟩).status = Status.paused
    ∧ pauseExecution 9 (pauseExecution 7 ⟨[], [], [], [], [], Status.running, 0,
        [⟨0, 100, some (), some 5⟩]⟩)
      = pauseExecution 7 ⟨[], [], [], [], [], Status.running, 0,
        [⟨0, 100, some (), some 5⟩]⟩ :=
  ⟨(pauseExecution_spec 7 9 _ rfl).1, (pauseExecution_spec 7 9 _ rfl).2.2⟩

/-- Suspending an entry always leaves it with no live timer. -/
theorem pauseEntry_timer (now : Int) (e : ScheduledEvent) :
    (pauseEntry now e).timer = none := by
  unfold pauseEntry
  cases ht : e.timer with
  | none => simpa using ht
  | some u =>
    cases e.startTime with
    | none => simp
    | some s => by_cases h0 : s = 0 <;> simp [h0]

/-- Re-arming never changes the remaining delay of an entry. -/
theorem resumeEntry_remainingDelay (now : Int) (e : ScheduledEvent) :
    (resumeEntry now e).remainingDelay = e.remainingDelay := by
  unfold resumeEntry
  by_cases h : e.timer.isSome <;> simp [h]

/-- Re-arming never changes the callback of an entry. -/
theorem resumeEntry_callback (now : Int) (e : ScheduledEvent) :
    (resumeEntry now e).callback = e.callback := by
  unfold resumeEntry
  by_cases h : e.timer.isSome <;> simp [h]

/-- Re-arming always leaves the entry with a live timer. -/
theorem resumeEntry_timer (now : Int) (e : ScheduledEvent) :
    (resumeEntry now e).timer.isSome = true := by
  unfold resumeEntry
  cases ht : e.timer with
  | none => simp
  | some u => simp [ht]

/-- The pause computation can only shrink an entry's remaining delay, as
long as the clock is monotone (the pause instant is not before the entry's
arming stamp) and the remaining delay was nonnegative. -/
theorem pauseEntry_remainingDelay_le (now : Int) (e : ScheduledEvent)
    (hm : ∀ s, e.startTime = some s → s ≤ now)
    (hr : 0 ≤ e.remainingDelay) :
    (pauseEntry now e).remainingDelay ≤ e.remainingDelay := by
  unfold pauseEntry
  cases ht : e.timer with
  | none => simp
  | some u =>
    cases hs : e.startTime with
    | none => simp
    | some s =>
      by_cases h0 : s = 0
      · simp [h0]
      · have hsle : s ≤ now := hm s hs
        simp [h0]
        constructor <;> omega

/-- C9: `pauseExecution` and `resumeExecution` change only the timer
registry, the run state and the output log — the four containers (stack,
pendingOps/webAPI, microtask queue, macrotask queue) and the id counter are
untouched by both; moreover, pausing a running state leaves every registry
entry with no live timer, so no scheduled action can fire (and hence no
container can be mutated) until `resumeExecution` re-arms the timers. -/
theorem pause_resume_frame (pnow rnow : Int) (st : SimState) :
    (pauseExecution pnow st).callStack = st.callStack
    ∧ (pauseExecution pnow st).webAPI = st.webAPI
    ∧ (pauseExecution pnow st).microTaskQueue = st.microTaskQueue
    ∧ (pauseExecution pnow st).callbackQueue = st.callbackQueue
    ∧ (pauseExecution pnow st).uniqueId = st.uniqueId
    ∧ (resumeExecution rnow st).callStack = st.callStack
    ∧ (resumeExecution rnow st).webAPI = st.webAPI
    ∧ (resumeExecution rnow st).microTaskQueue = st.microTaskQueue
    ∧ (resumeExecution rnow st).callbackQueue = st.callbackQueue
    ∧ (resumeExecution rnow st).uniqueId = st.uniqueId
    ∧ (st.status = Status.running →
        ((pauseExecution pnow st).scheduledEvents.all (fun e => e.timer = none)) = true) := by
  refine ⟨?_, ?_, ?_, ?_, ?_, ?_, ?_, ?_, ?_, ?_, ?_⟩
  · by_cases h : st.status = Status.running <;> simp [pauseExecution, h]
  · by_cases h : st.status = Status.running <;> simp [pauseExecution, h]
  · by_cases h : st.status = Status.running <;> simp [pauseExecution, h]
  · by_cases h : st.status = Status.running <;> simp [pauseExecution, h]
  · by_cases h : st.status = Status.running <;> simp [pauseExecution, h]
  · by_cases h : st.status = Status.paused <;> simp [resumeExecution, h]
  · by_cases h : st.status = Status.paused <;> simp [resumeExecution, h]
  · by_cases h : st.status = Status.paused <;> simp [resumeExecution, h]
  · by_cases h : st.status = Status.paused <;> simp [resumeExecution, h]
  · by_cases h : st.status = Status.paused <;> simp [resumeExecution, h]
  · intro hrun
    simp only [pauseExecution, hrun, if_true, ite_true, List.all_eq_true]
    intro e he
    rcases List.mem_map.mp he with ⟨e0, _, rfl⟩
    simp [pauseEntry_timer]

/-- Witness for C9 at a concrete running state with one armed entry,
including the discharged all-timers-cleared branch. -/
theorem pause_resume_frame_witness :
    (pauseExecution 7 ⟨[⟨0, "main()", EventType.DOM, 0⟩], [], [], [], [],
        Status.running, 1, [⟨0, 100, some (), some 5⟩]⟩).callStack
      = [⟨0, "main()", EventType.DOM, 0⟩]
    ∧ ((pauseExecution 7 ⟨[⟨0, "main()", EventType.DOM, 0⟩], [], [], [], [],
        Status.running, 1, [⟨0, 100, some (), some 5⟩]⟩).scheduledEvents.all
          (fun e => e.timer = none)) = true :=
  ⟨(pause_resume_frame 7 8 _).1,
   (pause_resume_frame 7 8 _).2.2.2.2.2.2.2.2.2.2 rfl⟩

/-- C7: `scheduleEvent cb d now` appends exactly one registry entry with
`remainingDelay = d` (the original delay), `armedAt = now` and a live
timer, leaving the projections of all earlier entries unchanged; under a
monotone clock the pause computation can only shrink each nonnegative
remaining delay, and resuming changes no remaining delay at all — so every
entry's remaining delay stays at or below the delay it was scheduled with,
decreasing only through the pause computation. -/
theorem scheduleEvent_delay_invariant (cb : Nat) (d now pnow rnow : Int) (st : SimState)
    (hm : ∀ e ∈ st.scheduledEvents, ∀ s, e.startTime = some s → s ≤ pnow)
    (hr : ∀ e ∈ st.scheduledEvents, 0 ≤ e.remainingDelay) :
    (scheduleEvent cb d now st).scheduledEvents.map
        (fun e => (e.remainingDelay, e.startTime, e.timer.isSome))
      = st.scheduledEvents.map (fun e => (e.remainingDelay, e.startTime, e.timer.isSome))
          ++ [(d, some now, true)]
    ∧ List.Forall₂ (fun e e2 => e2.remainingDelay ≤ e.remainingDelay)
        st.scheduledEvents (pauseExecution pnow st).scheduledEvents
    ∧ (resumeExecution rnow st).scheduledEvents.map (fun e => e.remainingDelay)
        = st.scheduledEvents.map (fun e => e.remainingDelay) := by
  refine ⟨?_, ?_, ?_⟩
  · simp [scheduleEvent]
  · by_cases h : st.status = Status.running
    · have hev : (pauseExecution pnow st).scheduledEvents
          = st.scheduledEvents.map (pauseEntry pnow) := by
        simp [pauseExecution, h]
      rw [hev]
      exact forall2_map_right _ _
        (fun e he => pauseEntry_remainingDelay_le pnow e (hm e he) (hr e he))
    · have hev : (pauseExecution pnow st).scheduledEvents = st.scheduledEvents := by
        simp [pauseExecution, h]
      rw [hev]
      exact List.forall₂_same.mpr (fun e _ => le_refl _)
  · by_cases h : st.status = Status.paused
    · simp only [resumeExecution, h, if_true, ite_true, List.map_map]
      exact List.map_congr_left (fun e _ => resumeEntry_remainingDelay rnow e)
    · simp [resumeExecution, h]

/-- Witness for C7 at a concrete running state with one armed entry
(`remainingDelay = 100`, `armedAt = 5`), paused at `now = 7`. -/
theorem scheduleEvent_delay_invariant_witness :
    List.Forall₂ (fun e e2 => e2.remainingDelay ≤ e.remainingDelay)
      (⟨[], [], [], [], [], Status.running, 0, [⟨0, 100, some (), some 5⟩]⟩ : SimState).scheduledEvents
      (pauseExecution 7 ⟨[], [], [], [], [], Status.running, 0, [⟨0, 100, some (), some 5⟩]⟩).scheduledEvents :=
  (scheduleEvent_delay_invariant 1 42 3 7 9 _
    (by intro e he s hs
        simp only [List.mem_singleton] at he
        subst he
        simp only [Option.some.injEq] at hs
        omega)
    (by decide)).2.1

/-- C10: pausing and immediately resuming at the same instant `now`, from a
running state in which every armed entry was armed exactly at `now` (zero
elapsed wall-clock time) and all remaining delays are nonnegative, is the
identity on the registry's delays: the status is running again, every
entry keeps its callback and its exact remaining delay, every entry ends up
with a live timer (in particular every entry that was counting down is
re-armed), and the registry has the same entries (same length, pointwise
correspondence). -/
theorem pause_resume_roundtrip (now : Int) (st : SimState)
    (hrun : st.status = Status.running)
    (hr : ∀ e ∈ st.scheduledEvents, 0 ≤ e.remainingDelay)
    (harm : ∀ e ∈ st.scheduledEvents, e.timer.isSome → e.startTime = some now) :
    (resumeExecution now (pauseExecution now st)).status = Status.running
    ∧ (resumeExecution now (pauseExecution now st)).scheduledEvents.map
          (fun e => (e.callback, e.remainingDelay))
        = st.scheduledEvents.map (fun e => (e.callback, e.remainingDelay))
    ∧ ((resumeExecution now (pauseExecution now st)).scheduledEvents.all
          (fun e => e.timer.isSome)) = true
    ∧ (resumeExecution now (pauseExecution now st)).scheduledEvents.length
        = st.scheduledEvents.length := by
  have hpause : pauseExecution now st
      = { st with
          status := Status.paused
          scheduledEvents := st.scheduledEvents.map (pauseEntry now)
          output := st.output ++ ["⏸️ Execution paused"] } := by
    simp [pauseExecution, hrun]
  have hres : (resumeExecution now (pauseExecution now st)).scheduledEvents
      = (st.scheduledEvents.map (pauseEntry now)).map (resumeEntry now) := by
    rw [hpause]; simp [resumeExecution]
  have hstat : (resumeExecution now (pauseExecution now st)).status = Status.running := by
    rw [hpause]; simp [resumeExecution]
  refine ⟨hstat, ?_, ?_, ?_⟩
  · rw [hres, List.map_map, List.map_map]
    apply List.map_congr_left
    intro e he
    have hdelay : (resumeEntry now (pauseEntry now e)).remainingDelay = e.remainingDelay := by
      rw [resumeEntry_remainingDelay]
      unfold pauseEntry
      cases ht : e.timer with
      | none => simp
      | some u =>
        have hs : e.startTime = some now := harm e he (by simp [ht])
        rw [hs]
        by_cases h0 : now = 0
        · simp [h0]
        · have h0r : 0 ≤ e.remainingDelay := hr e he
          simp [h0]
          omega
    have hcb : (resumeEntry now (pauseEntry now e)).callback = e.callback := by
      rw [resumeEntry_callback]
      rcases (pauseEntry_cases now e).2 with hsome
      cases ht : e.timer with
      | none => rw [(pauseEntry_cases now e).1 ht]
      | some u => exact (hsome (by simp [ht])).2.2.1
    simp [Function.comp, hdelay, hcb]
  · rw [hres, List.all_eq_true]
    intro e he
    rcases List.mem_map.mp he with ⟨e0, _, rfl⟩
    simp [resumeEntry_timer]
  · rw [hres]; simp

/-- Witness for C10 at a concrete running state with one entry armed
exactly at the pause instant. -/
theorem pause_resume_roundtrip_witness :
    (resumeExecution 7 (pauseExecution 7 ⟨[], [], [], [], [], Status.running, 0,
        [⟨3, 100, some (), some 7⟩]⟩)).status = Status.running
    ∧ (resumeExecution 7 (pauseExecution 7 ⟨[], [], [], [], [], Status.running, 0,
        [⟨3, 100, some (), some 7⟩]⟩)).scheduledEvents.map
          (fun e => (e.callback, e.remainingDelay))
      = (⟨[], [], [], [], [], Status.running, 0,
          [⟨3, 100, some (), some 7⟩]⟩ : SimState).scheduledEvents.map
          (fun e => (e.callback, e.remainingDelay)) :=
  ⟨(pause_resume_roundtrip 7 _ rfl (by decide) (by decide)).1,
   (pause_resume_roundtrip 7 _ rfl (by decide) (by decide)).2.1⟩

end V8Vis
